import Mathlib

/-!
Verification of the MapScraper orchestration core (`src/.actor/main.js`).

The JavaScript orchestrator is shallowly embedded: each numeric budget
computation becomes an `Int`-valued function, the pagination collector's
`while` loop becomes structural recursion over a finite trace of page
observations, the per-item extraction loop becomes a fold over an item
list, the concurrent email reconciliation (`Promise.race` of
`Promise.allSettled` against a timer) becomes a pure function over jobs
tagged with their resolution times, and the proxy-fallback bootstrap
becomes a function over the possible outcomes of each launch attempt.
-/

namespace MapScraper

/-! ## Time budget arithmetic (main.js lines 980-982, 1201-1214, 1384) -/

/-- Embeds `remaining()` from main.js line 981: `TIMEOUT_MS - elapsed()`. -/
def remainingMs (timeoutMs elapsedMs : Int) : Int := timeoutMs - elapsedMs

/-- Reserve of 25 000 ms kept for each search term still to come
(main.js lines 1201-1202): `(searchTerms.length - i - 1) * 25_000`. -/
def reserveForFuture (n i : Nat) : Int := ((n : Int) - (i : Int) - 1) * 25000

/-- Embeds `termTimeLimit` (main.js line 1203):
`remaining() - reserveForFuture - 5_000`. -/
def termTimeLimit (rem : Int) (n i : Nat) : Int := rem - reserveForFuture n i - 5000

/-- The current term's effective allowance (main.js line 1204):
`termDeadline = Date.now() + Math.max(termTimeLimit, 25_000)`, so the
allowance is `max(termTimeLimit, 25_000)`. -/
def termAllowance (rem : Int) (n i : Nat) : Int := max (termTimeLimit rem n i) 25000

/-- Embeds `maxExtractable` (main.js line 1210):
`Math.max(Math.floor(msForExtraction / 8_000), 1)`; `Math.floor` of the
real quotient of integers is floor division, i.e. `Int.fdiv`. -/
def maxExtractable (msForExtraction : Int) : Int :=
  max (msForExtraction.fdiv 8000) 1

/-- Embeds `newLinksTrimmed` (main.js line 1211):
`newLinks.slice(0, maxExtractable)`. -/
def newLinksTrimmed (msForExtraction : Int) (newLinks : List α) : List α :=
  newLinks.take (maxExtractable msForExtraction).toNat

/-- The per-item loop head (main.js lines 1216-1220): before each item the
code checks `Date.now() + 5_000 > termDeadline` and breaks if so;
otherwise it processes the item (consuming that item's wall-clock cost)
and continues.  `costs` lists the wall-clock cost of each item in the
trimmed list; the result is the number of items attempted. -/
def attemptedCount (termDeadline : Int) : Int → List Int → Nat
  | _, [] => 0
  | now, c :: cs =>
    if termDeadline < now + 5000 then 0
    else attemptedCount termDeadline (now + c) cs + 1

/-- Embeds `emailTimeout` (main.js line 1384):
`Math.max(Math.min(remaining() - 10_000, 15_000), 3_000)`. -/
def emailTimeout (rem : Int) : Int := max (min (rem - 10000) 15000) 3000

/-! ## Pagination collector `scrollAndCollect` (main.js lines 1498-1664)

One loop iteration is driven by what the page reports in that round: the
item links currently in the DOM, whether the end-of-results marker is
visible, whether the feed container is scrolled to its absolute bottom,
and whether `timeOk(10_000)` still holds at the loop head.  A finite
trace of such observations drives the recursion. -/

structure ScrollRound where
  links : List String
  endMarker : Bool
  atBottom : Bool
  timeOk : Bool
deriving DecidableEq, Repr

structure ScrollState where
  placeLinks : List String
  scrollAttempts : Nat
  previousCount : Nat
  staleRounds : Nat
deriving DecidableEq, Repr

def initScrollState : ScrollState := ⟨[], 0, 0, 0⟩

/-- JS `Set.add`: appends only when the element is absent, preserving
insertion order. -/
def setAdd (s : List String) (x : String) : List String :=
  if x ∈ s then s else s ++ [x]

/-- Embeds main.js lines 1527-1530: `for (const link of links) { if
(placeLinks.size >= maxResults) break; placeLinks.add(link); }`. -/
def collectLinks (maxResults : Nat) : List String → List String → List String
  | s, [] => s
  | s, l :: ls =>
    if maxResults ≤ s.length then s else collectLinks maxResults (setAdd s l) ls

/-- One loop body (lines 1520-1659), producing the updated state and
whether the body executed a `break`.  The stale counter update is lines
1532-1537; the end-marker break (guarded by `scrollAttempts >= 3`) is
lines 1541-1561; the at-bottom break and the `staleRounds >= 5` break are
lines 1565-1620; otherwise `scrollAttempts` is incremented (line 1645).
The recovery ladder steps for `staleRounds` of 2, 3 and 4 act only on the
page, not on this state. -/
def scrollRoundStep (maxResults : Nat) (st : ScrollState) (r : ScrollRound) :
    ScrollState × Bool :=
  let links := collectLinks maxResults st.placeLinks r.links
  let stale := if links.length = st.previousCount then st.staleRounds + 1 else 0
  let st1 : ScrollState := ⟨links, st.scrollAttempts, links.length, stale⟩
  if 3 ≤ st.scrollAttempts ∧ r.endMarker = true then (st1, true)
  else if 2 ≤ stale then
    if r.atBottom = true ∧ 3 ≤ stale then (st1, true)
    else if 5 ≤ stale then (st1, true)
    else ({ st1 with scrollAttempts := st1.scrollAttempts + 1 }, false)
  else ({ st1 with scrollAttempts := st1.scrollAttempts + 1 }, false)

/-- The `while` loop (line 1519): `while (placeLinks.size < maxResults &&
scrollAttempts < 100 && timeOk(10_000))`, consuming one page observation
per iteration. -/
def scrollLoop (maxResults : Nat) : ScrollState → List ScrollRound → ScrollState
  | st, [] => st
  | st, r :: rs =>
    if st.placeLinks.length < maxResults ∧ st.scrollAttempts < 100 ∧ r.timeOk = true then
      if (scrollRoundStep maxResults st r).2 then (scrollRoundStep maxResults st r).1
      else scrollLoop maxResults (scrollRoundStep maxResults st r).1 rs
    else st

/-- Embeds the whole collector; line 1663: `return Array.from(placeLinks)`. -/
def scrollAndCollect (maxResults : Nat) (rounds : List ScrollRound) : List String :=
  (scrollLoop maxResults initScrollState rounds).placeLinks

/-! ## Dedup ledger and the per-item extraction loop
(main.js lines 1070, 1186-1191, 1216-1380)

`extractedUrls` is the run-wide ledger (line 1070).  Per query the code
filters already-seen links out (line 1189), trims the list to the budget
(line 1211), and for each attempted item either fails with a caught
navigation error (lines 1376-1379, nothing recorded), bails out on an
empty place name (line 1325, nothing recorded), or succeeds, pushing the
record and marking the URL (lines 1368-1369).  An item's outcome is
`none` for a navigation error and `some name` for a page whose extracted
`placeName` is `name`. -/

def extractStep (lg : List String) (u : String) : Option String → List String
  | none => lg
  | some name => if name = "" then lg else setAdd lg u

/-- Embeds line 1189: `placeLinks.filter(url => !extractedUrls.has(url))`. -/
def newLinksFor (lg : List String) (placeLinks : List String) : List String :=
  placeLinks.filter (fun u => !(decide (u ∈ lg)))

/-- The ledger after the item loop has run over the given items. -/
def runItems (out : String → Option String) : List String → List String → List String
  | lg, [] => lg
  | lg, u :: us => runItems out (extractStep lg u (out u)) us

/-- One query's effect on the ledger: filter seen links, trim to `maxN`
items, then run the extraction loop. -/
def processQuery (lg : List String) (placeLinks : List String)
    (out : String → Option String) (maxN : Nat) : List String :=
  runItems out lg ((newLinksFor lg placeLinks).take maxN)

structure QuerySpec where
  placeLinks : List String
  out : String → Option String
  maxN : Nat

/-- The ledger threaded through an ordered sequence of queries, as the
term loop of main.js does with `extractedUrls`. -/
def runQueries : List String → List QuerySpec → List String
  | lg, [] => lg
  | lg, q :: qs => runQueries (processQuery lg q.placeLinks q.out q.maxN) qs

/-! ## Concurrent email enrichment reconciliation (main.js lines 1359-1399)

During extraction each record lacking an email but holding a website
schedules `scrapeEmailsFromWebsite` without awaiting it (lines
1361-1366), remembering the record index.  After the loop the code runs
`Promise.race([Promise.allSettled(jobs), sleep(emailTimeout)])` (lines
1386-1389): the `allSettled` branch wins exactly when every job has
settled within the window, otherwise the race yields `null` and the
patch loop (lines 1391-1398) is skipped entirely.  Every job promise
carries `.catch(() => [])`, so each settles as fulfilled; a record is
patched only when its job's value list is non-empty. -/

structure EmailJob where
  idx : Nat
  resolveTime : Nat
  value : List String
deriving DecidableEq, Repr

/-- The patch loop of lines 1392-1397: for each job whose value list is
non-empty, overwrite `results[job.idx].emails`. -/
def patchEmails : List EmailJob → List (List String) → List (List String)
  | [], rs => rs
  | j :: js, rs => patchEmails js (if 0 < j.value.length then rs.set j.idx j.value else rs)

/-- The reconciliation of lines 1383-1399: the patch loop runs only when
every scheduled job settles within the `emailTimeout` window; otherwise
the race returns `null` and the results are left untouched. -/
def reconcileEmails (win : Nat) (jobs : List EmailJob)
    (results : List (List String)) : List (List String) :=
  if jobs.all (fun j => decide (j.resolveTime ≤ win)) then patchEmails jobs results
  else results

/-! ## Session bootstrap with proxy fallback (main.js lines 111-181)

`launchAndTest` (lines 124-142) launches a browser, opens a page and
navigates to the Maps root with a 30 s readiness timeout.  If the
navigation throws, the function propagates the exception *without
closing the browser it just launched*.  The caller (lines 144-181) tries
the relayed path once and, in its `catch`, the direct path once; a
failure of the direct path propagates to the top-level handler (lines
404-418), which fails the run before any query is processed.  An
attempt's outcome is: `ok` (launch and readiness navigation both
succeed), `failAfterLaunch` (launch succeeds, navigation throws — the
typical black-holing relay), or `failAtLaunch` (the launch itself
throws, no browser created). -/

inductive ConnMode where
  | relayed
  | direct
deriving DecidableEq, Repr

inductive PathOutcome where
  | ok
  | failAfterLaunch
  | failAtLaunch
deriving DecidableEq, Repr

structure BootEnv where
  hasProxy : Bool
  parseOk : Bool
  relayOutcome : PathOutcome
  directOutcome : PathOutcome
deriving DecidableEq, Repr

/-- Number of browser instances left open by one `launchAndTest` call:
on success the session is kept; on a post-launch failure the browser is
abandoned but never closed; on a launch failure none exists. -/
def launchSessions : PathOutcome → Nat
  | .ok => 1
  | .failAfterLaunch => 1
  | .failAtLaunch => 0

structure BootResult where
  attempts : List ConnMode
  liveSessions : Nat
  connected : Option ConnMode
deriving DecidableEq, Repr

/-- Embeds the fallback logic of lines 144-181: with a parsed proxy the
relayed path is attempted first and the direct path exactly once in its
`catch`; without a proxy (or when parsing the proxy URL throws, lines
147-152) only the direct path is attempted. -/
def bootstrap (env : BootEnv) : BootResult :=
  if env.hasProxy && env.parseOk then
    match env.relayOutcome with
    | .ok => ⟨[.relayed], 1, some .relayed⟩
    | ro =>
      match env.directOutcome with
      | .ok => ⟨[.relayed, .direct], launchSessions ro + 1, some .direct⟩
      | d => ⟨[.relayed, .direct], launchSessions ro + launchSessions d, none⟩
  else
    match env.directOutcome with
    | .ok => ⟨[.direct], 1, some .direct⟩
    | d => ⟨[.direct], launchSessions d, none⟩

/-- Number of queries the run processes: a bootstrap failure propagates
to the top-level catch (main.js lines 404-418) before the term loop is
reached, so no query runs. -/
def queriesRun (env : BootEnv) (q : Nat) : Nat :=
  match (bootstrap env).connected with
  | none => 0
  | some _ => q

/-! ## Helper lemmas -/

theorem attemptedCount_le_length (d : Int) :
    ∀ (now : Int) (cs : List Int), attemptedCount d now cs ≤ cs.length := by
  intro now cs
  induction cs generalizing now with
  | nil => simp [attemptedCount]
  | cons c cs ih =>
    simp only [attemptedCount, List.length_cons]
    split
    · omega
    · have := ih (now + c)
      omega

theorem fdiv_ge_of_le {a : Int} (k : Int)
    (h : k * 8000 ≤ a) : k ≤ a.fdiv 8000 := by
  have h8 : (0:Int) ≤ 8000 := by norm_num
  rw [Int.fdiv_eq_ediv a h8]
  have h8' : (0:Int) < 8000 := by norm_num
  rw [Int.le_ediv_iff_mul_le h8']
  exact h

theorem maxExtractable_eq_fdiv {alw : Int} (h : 25000 ≤ alw) :
    maxExtractable alw = alw.fdiv 8000 := by
  have h3 : (3:Int) ≤ alw.fdiv 8000 := fdiv_ge_of_le 3 (by omega)
  have h1 : (1:Int) ≤ alw.fdiv 8000 := by omega
  simpa [maxExtractable] using max_eq_left h1

theorem scrollRoundStep_placeLinks (maxResults : Nat) (st : ScrollState) (r : ScrollRound) :
    (scrollRoundStep maxResults st r).1.placeLinks =
      collectLinks maxResults st.placeLinks r.links := by
  simp only [scrollRoundStep]
  split_ifs <;> rfl

theorem setAdd_length (s : List String) (x : String) :
    (setAdd s x).length ≤ s.length + 1 := by
  unfold setAdd; split <;> simp

theorem setAdd_nodup {s : List String} (h : s.Nodup) (x : String) :
    (setAdd s x).Nodup := by
  unfold setAdd
  split
  · exact h
  · next hx =>
    refine h.append (List.nodup_singleton x) ?_
    intro a ha hb
    simp only [List.mem_singleton] at hb
    subst hb
    exact hx ha

theorem setAdd_extends (s : List String) (x : String) : s <+: setAdd s x := by
  unfold setAdd
  split
  · exact List.prefix_rfl
  · exact ⟨[x], rfl⟩

theorem setAdd_mem (s : List String) (x u : String) :
    u ∈ setAdd s x ↔ u ∈ s ∨ u = x := by
  unfold setAdd
  split
  · next hx =>
    constructor
    · exact Or.inl
    · rintro (h | rfl)
      · exact h
      · exact hx
  · simp

theorem collectLinks_length (maxResults : Nat) :
    ∀ (ls s : List String), s.length ≤ maxResults →
      (collectLinks maxResults s ls).length ≤ maxResults := by
  intro ls
  induction ls with
  | nil => intro s h; simpa [collectLinks] using h
  | cons l ls ih =>
    intro s h
    unfold collectLinks
    split
    · exact h
    · next hlt =>
      have h1 := setAdd_length s l
      exact ih (setAdd s l) (by omega)

theorem collectLinks_nodup (maxResults : Nat) :
    ∀ (ls s : List String), s.Nodup → (collectLinks maxResults s ls).Nodup := by
  intro ls
  induction ls with
  | nil => intro s h; simpa [collectLinks] using h
  | cons l ls ih =>
    intro s h
    unfold collectLinks
    split
    · exact h
    · exact ih _ (setAdd_nodup h l)

theorem collectLinks_extends (maxResults : Nat) :
    ∀ (ls s : List String), s <+: collectLinks maxResults s ls := by
  intro ls
  induction ls with
  | nil => intro s; simp [collectLinks]
  | cons l ls ih =>
    intro s
    unfold collectLinks
    split
    · exact List.prefix_rfl
    · exact (setAdd_extends s l).trans (ih (setAdd s l))

theorem scrollLoop_invariant (maxResults : Nat) :
    ∀ (rounds : List ScrollRound) (st : ScrollState),
      st.placeLinks.length ≤ maxResults → st.placeLinks.Nodup →
      ((scrollLoop maxResults st rounds).placeLinks.length ≤ maxResults ∧
       (scrollLoop maxResults st rounds).placeLinks.Nodup ∧
       st.placeLinks <+: (scrollLoop maxResults st rounds).placeLinks) := by
  intro rounds
  induction rounds with
  | nil =>
    intro st h1 h2
    exact ⟨h1, h2, List.prefix_rfl⟩
  | cons r rs ih =>
    intro st h1 h2
    unfold scrollLoop
    split
    · have hpl := scrollRoundStep_placeLinks maxResults st r
      have hlen : (scrollRoundStep maxResults st r).1.placeLinks.length ≤ maxResults := by
        rw [hpl]; exact collectLinks_length maxResults r.links st.placeLinks h1
      have hnd : (scrollRoundStep maxResults st r).1.placeLinks.Nodup := by
        rw [hpl]; exact collectLinks_nodup maxResults r.links st.placeLinks h2
      have hpre : st.placeLinks <+: (scrollRoundStep maxResults st r).1.placeLinks := by
        rw [hpl]; exact collectLinks_extends maxResults r.links st.placeLinks
      split
      · exact ⟨hlen, hnd, hpre⟩
      · have := ih (scrollRoundStep maxResults st r).1 hlen hnd
        exact ⟨this.1, this.2.1, hpre.trans this.2.2⟩
    · exact ⟨h1, h2, List.prefix_rfl⟩

theorem extractStep_mem (lg : List String) (v u : String) (r : Option String) :
    u ∈ extractStep lg v r ↔ u ∈ lg ∨ (u = v ∧ ∃ n, r = some n ∧ n ≠ "") := by
  cases r with
  | none => simp [extractStep]
  | some name =>
    simp only [extractStep]
    by_cases hn : name = ""
    · subst hn; simp
    · rw [if_neg hn, setAdd_mem]
      constructor
      · rintro (h | rfl)
        · exact Or.inl h
        · exact Or.inr ⟨rfl, name, rfl, hn⟩
      · rintro (h | ⟨rfl, n, hn2, _⟩)
        · exact Or.inl h
        · exact Or.inr rfl

theorem runItems_mem (out : String → Option String) :
    ∀ (us lg : List String) (u : String),
      u ∈ runItems out lg us ↔
        u ∈ lg ∨ (u ∈ us ∧ ∃ n, out u = some n ∧ n ≠ "") := by
  intro us
  induction us with
  | nil => intro lg u; simp [runItems]
  | cons v vs ih =>
    intro lg u
    rw [runItems, ih, extractStep_mem]
    constructor
    · rintro ((h | ⟨rfl, hs⟩) | ⟨hm, hs⟩)
      · exact Or.inl h
      · exact Or.inr ⟨List.mem_cons_self _ _, hs⟩
      · exact Or.inr ⟨List.mem_cons_of_mem _ hm, hs⟩
    · rintro (h | ⟨hm, hs⟩)
      · exact Or.inl (Or.inl h)
      · rcases List.mem_cons.mp hm with rfl | hm'
        · exact Or.inl (Or.inr ⟨rfl, hs⟩)
        · exact Or.inr ⟨hm', hs⟩

theorem processQuery_mono (lg pls : List String) (out : String → Option String)
    (maxN : Nat) (u : String) (h : u ∈ lg) :
    u ∈ processQuery lg pls out maxN :=
  (runItems_mem out _ lg u).mpr (Or.inl h)

theorem runQueries_mono :
    ∀ (qs : List QuerySpec) (lg : List String) (u : String),
      u ∈ lg → u ∈ runQueries lg qs := by
  intro qs
  induction qs with
  | nil => intro lg u h; simpa [runQueries] using h
  | cons q qs ih =>
    intro lg u h
    exact ih _ u (processQuery_mono lg q.placeLinks q.out q.maxN u h)

theorem patchEmails_length :
    ∀ (js : List EmailJob) (rs : List (List String)),
      (patchEmails js rs).length = rs.length := by
  intro js
  induction js with
  | nil => intro rs; rfl
  | cons j js ih =>
    intro rs
    rw [patchEmails, ih]
    split <;> simp

theorem patchEmails_getElem_untouched :
    ∀ (js : List EmailJob) (rs : List (List String)) (k : Nat),
      (∀ j ∈ js, 0 < j.value.length → j.idx ≠ k) →
      (patchEmails js rs)[k]? = rs[k]? := by
  intro js
  induction js with
  | nil => intro rs k _; rfl
  | cons j js ih =>
    intro rs k hk
    rw [patchEmails]
    rw [ih _ _ (fun j' hj' => hk j' (List.mem_cons_of_mem _ hj'))]
    split
    · next hv => exact List.getElem?_set_ne (hk j (List.mem_cons_self _ _) hv)
    · rfl

theorem patchEmails_getElem_patched :
    ∀ (js : List EmailJob) (rs : List (List String)) (j : EmailJob),
      (js.map EmailJob.idx).Nodup → j ∈ js → j.idx < rs.length →
      0 < j.value.length →
      (patchEmails js rs)[j.idx]? = some j.value := by
  intro js
  induction js with
  | nil => intro rs j _ hj; exact absurd hj (List.not_mem_nil j)
  | cons j0 js ih =>
    intro rs j hnd hj hlt hv
    rcases List.mem_cons.mp hj with rfl | hj'
    · rw [patchEmails, if_pos hv]
      have hrest : ∀ j' ∈ js, 0 < j'.value.length → j'.idx ≠ j.idx := by
        intro j' hj' _
        have : j.idx ∉ js.map EmailJob.idx := (List.nodup_cons.mp hnd).1
        intro he
        exact this (he ▸ List.mem_map_of_mem EmailJob.idx hj')
      rw [patchEmails_getElem_untouched js _ j.idx hrest]
      exact List.getElem?_set_self hlt
    · rw [patchEmails]
      have hlt' : j.idx < (if 0 < j0.value.length then rs.set j0.idx j0.value else rs).length := by
        split <;> simpa using hlt
      exact ih _ j (List.nodup_cons.mp hnd).2 hj' hlt' hv

/-! ## Claim theorems -/

/-- Claim C2: before query `i` of `n` the scheduler computes
`reserve = (n - i - 1) * 25000` and `allowance = max(remaining - reserve
- 5000, 25000)`; the reserve is non-negative whenever `i < n`, the
allowance never falls below the 25 000 ms floor, and in the concrete
scenario (3 queries, 270 000 ms budget, 10 000 ms elapsed before query 2)
the reserve is 25 000 and the allowance is 230 000 ms. -/
theorem term_budget_formula (n i : Nat) (rem : Int) (hi : i < n) :
    0 ≤ reserveForFuture n i ∧
    termAllowance rem n i = max (rem - reserveForFuture n i - 5000) 25000 ∧
    25000 ≤ termAllowance rem n i ∧
    reserveForFuture 3 1 = 25000 ∧
    termAllowance (remainingMs 270000 10000) 3 1 = 230000 := by
  refine ⟨?_, rfl, le_max_right _ _, by decide, by decide⟩
  have hlt : (i : Int) < (n : Int) := by exact_mod_cast hi
  have h : (0:Int) ≤ ((n : Int) - (i : Int) - 1) := by omega
  have h2 : (0:Int) ≤ (25000 : Int) := by norm_num
  simpa [reserveForFuture] using mul_nonneg h h2

theorem term_budget_formula_witness :
    0 ≤ reserveForFuture 3 1 ∧
    termAllowance 260000 3 1 = max ((260000 : Int) - reserveForFuture 3 1 - 5000) 25000 ∧
    25000 ≤ termAllowance 260000 3 1 ∧
    reserveForFuture 3 1 = 25000 ∧
    termAllowance (remainingMs 270000 10000) 3 1 = 230000 :=
  term_budget_formula 3 1 260000 (by decide)

/-- Claim C9: `emailTimeout = max(min(remaining - 10000, 15000), 3000)`
always lies in the closed interval [3000, 15000], and equals 3000 — the
reconciliation still waits — whenever `remaining() - 10000` is zero or
negative. -/
theorem emailTimeout_clamped (rem : Int) :
    3000 ≤ emailTimeout rem ∧ emailTimeout rem ≤ 15000 ∧
    (rem - 10000 ≤ 0 → emailTimeout rem = 3000) := by
  unfold emailTimeout
  rw [max_def, min_def]
  split <;> split <;> omega

theorem emailTimeout_clamped_witness :
    3000 ≤ emailTimeout 0 ∧ emailTimeout 0 ≤ 15000 ∧ emailTimeout 0 = 3000 := by
  have h := emailTimeout_clamped 0
  exact ⟨h.1, h.2.1, h.2.2 (by decide)⟩

/-- Claim C3: the number of items attempted under a term allowance `alw`
never exceeds `floor(alw / 8000)`: the pre-trim caps the loop at
`maxExtractable` items, which equals `floor(alw / 8000)` because the
allowance is at least 25 000 ms.  Concretely, 40 candidate links under a
100 000 ms allowance are trimmed to `floor(100000/8000) = 12` items, and
all 12 are attempted (each costing 8 000 ms), not 40. -/
theorem pretrim_attempt_bound (alw now0 : Int) (links : List String)
    (costs : List Int) (halw : 25000 ≤ alw)
    (hlen : costs.length = (newLinksTrimmed alw links).length) :
    attemptedCount (now0 + alw) now0 costs ≤ (alw.fdiv 8000).toNat ∧
    (newLinksTrimmed 100000 (List.range 40)).length = 12 ∧
    attemptedCount 100000 0 (List.replicate 12 8000) = 12 := by
  refine ⟨?_, by decide, by decide⟩
  have h1 : attemptedCount (now0 + alw) now0 costs ≤ costs.length :=
    attemptedCount_le_length _ _ _
  have h2 : (newLinksTrimmed alw links).length ≤ (maxExtractable alw).toNat := by
    simp [newLinksTrimmed]
  rw [maxExtractable_eq_fdiv halw] at h2
  omega

theorem pretrim_attempt_bound_witness :
    attemptedCount (0 + 100000) 0 (List.replicate 12 8000) ≤ ((100000 : Int).fdiv 8000).toNat ∧
    (newLinksTrimmed 100000 (List.range 40)).length = 12 ∧
    attemptedCount 100000 0 (List.replicate 12 8000) = 12 :=
  pretrim_attempt_bound 100000 0 ((List.range 40).map (fun k => toString k))
    (List.replicate 12 8000) (by decide) (by decide)

/-- Claim C10: `maxExtractable = max(floor(ms / 8000), 1)` is at least 1
for every integer budget, at least 3 once the 25 000 ms minimum term
allowance is in force, the pre-trim therefore never empties a non-empty
candidate list, and with an allowance of at least 25 000 ms the item loop
attempts at least one extraction. -/
theorem pretrim_never_empty (b alw now0 c : Int) (links : List String)
    (cs : List Int) (hl : links ≠ []) (halw : 25000 ≤ alw) :
    1 ≤ maxExtractable b ∧
    3 ≤ maxExtractable alw ∧
    newLinksTrimmed b links ≠ [] ∧
    1 ≤ attemptedCount (now0 + alw) now0 (c :: cs) := by
  refine ⟨le_max_right _ _, ?_, ?_, ?_⟩
  · rw [maxExtractable_eq_fdiv halw]
    exact fdiv_ge_of_le 3 (by omega)
  · have h : (1:Int) ≤ maxExtractable b := le_max_right _ _
    have h1 : 1 ≤ (maxExtractable b).toNat := by omega
    simp only [newLinksTrimmed]
    cases links with
    | nil => exact absurd rfl hl
    | cons x xs =>
      cases hmx : (maxExtractable b).toNat with
      | zero => omega
      | succ m => simp [List.take]
  · simp only [attemptedCount]
    split
    · omega
    · omega

theorem pretrim_never_empty_witness :
    1 ≤ maxExtractable (-500) ∧
    3 ≤ maxExtractable 25000 ∧
    newLinksTrimmed (-500) ["u"] ≠ [] ∧
    1 ≤ attemptedCount (0 + 25000) 0 (8000 :: []) :=
  pretrim_never_empty (-500) 25000 0 8000 ["u"] []
    (by simp) (by decide)

/-- Claim C4: for every target count `N` and every trace of harvest
rounds, the collector's output has at most `N` links and no duplicates,
and the running link set only ever grows (the state entering any suffix
of the trace is a prefix of the final output). -/
theorem scrollAndCollect_bounded (N : Nat) (rounds : List ScrollRound)
    (st : ScrollState) (hlen : st.placeLinks.length ≤ N) (hnd : st.placeLinks.Nodup) :
    (scrollAndCollect N rounds).length ≤ N ∧
    (scrollAndCollect N rounds).Nodup ∧
    (scrollLoop N st rounds).placeLinks.length ≤ N ∧
    (scrollLoop N st rounds).placeLinks.Nodup ∧
    st.placeLinks <+: (scrollLoop N st rounds).placeLinks := by
  have hinit := scrollLoop_invariant N rounds initScrollState
    (by simp [initScrollState]) (by simp [initScrollState])
  have hst := scrollLoop_invariant N rounds st hlen hnd
  exact ⟨hinit.1, hinit.2.1, hst.1, hst.2.1, hst.2.2⟩

theorem scrollAndCollect_bounded_witness :
    (scrollAndCollect 2 [⟨["a", "b", "c"], false, false, true⟩]).length ≤ 2 ∧
    (scrollAndCollect 2 [⟨["a", "b", "c"], false, false, true⟩]).Nodup ∧
    (scrollLoop 2 ⟨["z"], 0, 0, 0⟩ [⟨["a", "b", "c"], false, false, true⟩]).placeLinks.length ≤ 2 ∧
    (scrollLoop 2 ⟨["z"], 0, 0, 0⟩ [⟨["a", "b", "c"], false, false, true⟩]).placeLinks.Nodup ∧
    (["z"] : List String) <+:
      (scrollLoop 2 ⟨["z"], 0, 0, 0⟩ [⟨["a", "b", "c"], false, false, true⟩]).placeLinks :=
  scrollAndCollect_bounded 2 [⟨["a", "b", "c"], false, false, true⟩]
    ⟨["z"], 0, 0, 0⟩ (by decide) (by decide)

/-- Claim C5 counterexample: an end-of-list marker visible in round 0 is
ignored — the marker is only consulted once `scrollAttempts >= 3` — so
the collector performs a further round and harvests another link,
although the claim says it terminates at the marker's round. -/
theorem endMarker_early_ignored :
    (⟨["a"], true, false, true⟩ : ScrollRound).endMarker = true ∧
    scrollAndCollect 5 [⟨["a"], true, false, true⟩] = ["a"] ∧
    scrollAndCollect 5 [⟨["a"], true, false, true⟩, ⟨["b"], false, false, true⟩]
      = ["a", "b"] := by
  refine ⟨rfl, ?_, ?_⟩ <;> decide

/-- Claim C5 (amended): once at least three scroll rounds have been
performed (`scrollAttempts >= 3`), a visible end-of-list marker makes the
collector terminate at that round — no later round of the trace is ever
consumed, regardless of how far short of the target the link set is. -/
theorem endMarker_terminates (N : Nat) (st : ScrollState) (r : ScrollRound)
    (rs rs' : List ScrollRound) (hm : r.endMarker = true)
    (ha : 3 ≤ st.scrollAttempts) :
    scrollLoop N st (r :: rs) = scrollLoop N st (r :: rs') := by
  have hstep : (scrollRoundStep N st r).2 = true := by
    unfold scrollRoundStep
    rw [if_pos ⟨ha, hm⟩]
  unfold scrollLoop
  simp [hstep]

theorem endMarker_terminates_witness :
    scrollLoop 50 ⟨["a"], 3, 1, 0⟩
        [⟨["b"], true, false, true⟩, ⟨["c"], false, false, true⟩] =
      scrollLoop 50 ⟨["a"], 3, 1, 0⟩ [⟨["b"], true, false, true⟩] :=
  endMarker_terminates 50 ⟨["a"], 3, 1, 0⟩ ⟨["b"], true, false, true⟩
    [⟨["c"], false, false, true⟩] [] rfl (by decide)

/-- Claim C6: the dedup ledger only grows — within one query, across a
whole run's query sequence — links already in the ledger are filtered
out of a later query's candidate list, and a link enters the ledger
through a query exactly when it was among the query's attempted new
links and its extraction succeeded (navigation did not throw and the
extracted place name was non-empty); failed links are not added and can
be retried later. -/
theorem dedup_ledger_mark_after_success (lg pls : List String)
    (out : String → Option String) (maxN : Nat) (qs : List QuerySpec) (u : String) :
    (u ∈ lg → u ∈ processQuery lg pls out maxN) ∧
    (u ∈ lg → u ∈ runQueries lg qs) ∧
    (u ∈ lg → u ∉ newLinksFor lg pls) ∧
    (u ∈ processQuery lg pls out maxN ↔
      u ∈ lg ∨ (u ∈ (newLinksFor lg pls).take maxN ∧ ∃ n, out u = some n ∧ n ≠ "")) := by
  refine ⟨processQuery_mono lg pls out maxN u, runQueries_mono qs lg u, ?_, ?_⟩
  · intro h hmem
    have := (List.mem_filter.mp hmem).2
    simp only [Bool.not_eq_true', decide_eq_false_iff_not] at this
    exact this h
  · exact runItems_mem out _ lg u

theorem dedup_ledger_mark_after_success_witness :
    (("u1" : String) ∈ (["u1"] : List String) →
      ("u1" : String) ∈ processQuery ["u1"] ["u1", "u2"]
        (fun v => if v = ("u2" : String) then some ("Shop") else none) 5) ∧
    (("u1" : String) ∈ (["u1"] : List String) →
      ("u1" : String) ∈ runQueries ["u1"] [⟨["u3"], fun _ => some ("P"), 4⟩]) ∧
    (("u1" : String) ∈ (["u1"] : List String) →
      ("u1" : String) ∉ newLinksFor ["u1"] ["u1", "u2"]) ∧
    (("u1" : String) ∈ processQuery ["u1"] ["u1", "u2"]
        (fun v => if v = ("u2" : String) then some ("Shop") else none) 5 ↔
      ("u1" : String) ∈ (["u1"] : List String) ∨
        (("u1" : String) ∈ (newLinksFor ["u1"] ["u1", "u2"]).take 5 ∧
          ∃ n, (fun v => if v = ("u2" : String) then some ("Shop") else none) ("u1" : String)
            = some n ∧ n ≠ "")) :=
  dedup_ledger_mark_after_success ["u1"] ["u1", "u2"]
    (fun v => if v = ("u2" : String) then some ("Shop") else none) 5
    [⟨["u3"], fun _ => some ("P"), 4⟩] "u1"

/-- Claim C1 counterexample: with a reconciliation window of 3000 ms and
two scheduled lookups of which exactly one resolves inside the window
(J = 1 of K = 2), the code patches zero records — the race is
all-or-nothing, so the lone resolved lookup's value is discarded — while
the claim requires exactly one patched record. -/
theorem reconcile_partial_cex :
    ((([⟨0, 1000, ["a@x"]⟩, ⟨1, 99999, ["b@y"]⟩] : List EmailJob).countP
        (fun j => decide (j.resolveTime ≤ 3000))) = 1) ∧
    reconcileEmails 3000 [⟨0, 1000, ["a@x"]⟩, ⟨1, 99999, ["b@y"]⟩] [[], []]
      = [[], []] := by
  constructor <;> decide

/-- Claim C1 (amended): reconciliation is all-or-nothing per query — if
any scheduled lookup is still pending when the wait window expires, no
record is patched and every record keeps its default; only when all K
lookups settle within the window does each lookup that produced a
non-empty value list patch its record, and records not targeted by such
a lookup keep their previous value. -/
theorem reconcile_all_or_nothing (win : Nat) (jobs : List EmailJob)
    (results : List (List String)) (hnd : (jobs.map EmailJob.idx).Nodup) :
    ((∃ j ∈ jobs, win < j.resolveTime) → reconcileEmails win jobs results = results) ∧
    ((∀ j ∈ jobs, j.resolveTime ≤ win) →
      (∀ j ∈ jobs, j.idx < results.length → 0 < j.value.length →
        (reconcileEmails win jobs results)[j.idx]? = some j.value) ∧
      (∀ k : Nat, (∀ j ∈ jobs, 0 < j.value.length → j.idx ≠ k) →
        (reconcileEmails win jobs results)[k]? = results[k]?)) := by
  constructor
  · rintro ⟨j, hj, hlate⟩
    unfold reconcileEmails
    rw [if_neg]
    intro hall
    have := List.all_eq_true.mp hall j hj
    simp only [decide_eq_true_eq] at this
    omega
  · intro hall
    have hcond : jobs.all (fun j => decide (j.resolveTime ≤ win)) = true := by
      rw [List.all_eq_true]
      intro j hj
      simpa using hall j hj
    unfold reconcileEmails
    rw [if_pos hcond]
    constructor
    · intro j hj hlt hv
      exact patchEmails_getElem_patched jobs results j hnd hj hlt hv
    · intro k hk
      exact patchEmails_getElem_untouched jobs results k hk

theorem reconcile_all_or_nothing_witness :
    ((∃ j ∈ ([⟨0, 500, ["a@x"]⟩, ⟨1, 700, []⟩] : List EmailJob), 10000 < j.resolveTime) →
      reconcileEmails 10000 [⟨0, 500, ["a@x"]⟩, ⟨1, 700, []⟩] [[], [], ["z"]]
        = [[], [], ["z"]]) ∧
    ((∀ j ∈ ([⟨0, 500, ["a@x"]⟩, ⟨1, 700, []⟩] : List EmailJob), j.resolveTime ≤ 10000) →
      (∀ j ∈ ([⟨0, 500, ["a@x"]⟩, ⟨1, 700, []⟩] : List EmailJob),
        j.idx < ([[], [], ["z"]] : List (List String)).length → 0 < j.value.length →
        (reconcileEmails 10000 [⟨0, 500, ["a@x"]⟩, ⟨1, 700, []⟩] [[], [], ["z"]])[j.idx]?
          = some j.value) ∧
      (∀ k : Nat, (∀ j ∈ ([⟨0, 500, ["a@x"]⟩, ⟨1, 700, []⟩] : List EmailJob),
          0 < j.value.length → j.idx ≠ k) →
        (reconcileEmails 10000 [⟨0, 500, ["a@x"]⟩, ⟨1, 700, []⟩] [[], [], ["z"]])[k]?
          = ([[], [], ["z"]] : List (List String))[k]?)) :=
  reconcile_all_or_nothing 10000 [⟨0, 500, ["a@x"]⟩, ⟨1, 700, []⟩]
    [[], [], ["z"]] (by decide)

/-- Claim C7: when the proxy URL parses and the relayed bootstrap attempt
fails, the run attempts the relay once and the direct fallback once —
the attempt list is exactly `[relayed, direct]`, so the relayed path is
never retried — and when the direct fallback fails too, no connection is
established and zero queries are processed. -/
theorem bootstrap_fallback_once (env : BootEnv) (q : Nat)
    (hp : env.hasProxy = true) (hpk : env.parseOk = true)
    (hr : env.relayOutcome ≠ PathOutcome.ok) :
    (bootstrap env).attempts = [ConnMode.relayed, ConnMode.direct] ∧
    (env.directOutcome = PathOutcome.ok →
      (bootstrap env).connected = some ConnMode.direct) ∧
    (env.directOutcome ≠ PathOutcome.ok →
      (bootstrap env).connected = none ∧ queriesRun env q = 0) := by
  obtain ⟨hpx, pk, ro, dto⟩ := env
  simp only at hp hpk hr
  subst hp hpk
  cases ro with
  | ok => exact absurd rfl hr
  | failAfterLaunch =>
    cases dto <;> simp [bootstrap, queriesRun, launchSessions]
  | failAtLaunch =>
    cases dto <;> simp [bootstrap, queriesRun, launchSessions]

theorem bootstrap_fallback_once_witness :
    (bootstrap ⟨true, true, PathOutcome.failAfterLaunch, PathOutcome.failAtLaunch⟩).attempts
      = [ConnMode.relayed, ConnMode.direct] ∧
    ((⟨true, true, PathOutcome.failAfterLaunch, PathOutcome.failAtLaunch⟩ : BootEnv).directOutcome
        = PathOutcome.ok →
      (bootstrap ⟨true, true, PathOutcome.failAfterLaunch, PathOutcome.failAtLaunch⟩).connected
        = some ConnMode.direct) ∧
    ((⟨true, true, PathOutcome.failAfterLaunch, PathOutcome.failAtLaunch⟩ : BootEnv).directOutcome
        ≠ PathOutcome.ok →
      (bootstrap ⟨true, true, PathOutcome.failAfterLaunch, PathOutcome.failAtLaunch⟩).connected
        = none ∧
      queriesRun ⟨true, true, PathOutcome.failAfterLaunch, PathOutcome.failAtLaunch⟩ 7 = 0) :=
  bootstrap_fallback_once ⟨true, true, PathOutcome.failAfterLaunch, PathOutcome.failAtLaunch⟩ 7
    rfl rfl (by decide)

/-- Claim C8 failing input: the relayed attempt launches a browser whose
readiness navigation then times out; `launchAndTest` propagates the
exception without closing that browser, and the `catch` (main.js lines
161-168) launches the direct session on top — so after a successful
fallback two browser sessions are live, not one as the claim states. -/
theorem bootstrap_leak_on_fallback :
    (bootstrap ⟨true, true, PathOutcome.failAfterLaunch, PathOutcome.ok⟩).connected
      = some ConnMode.direct ∧
    (bootstrap ⟨true, true, PathOutcome.failAfterLaunch, PathOutcome.ok⟩).liveSessions = 2 := by
  constructor <;> rfl

end MapScraper
